import Mathlib

/-!
Verification of the phelps incremental note-graph build engine.

Shallow embedding of the core data model and operations:
- `DiGraph`: the `petgraph::DiGraphMap` operations used by the code
  (`src/backend/src/notes_service.rs`, `src/backend/src/build_service.rs`).
- `NotesState` with `create_notes` / `update_notes` / `remove_notes` /
  `get_note_content` / `get_note_metadata` from
  `src/backend/src/notes_service.rs`.  Panics (`unwrap`, map index) are
  modelled as `Option.none` results.
- The build coordinator transitions `handle_create` / `handle_modify` /
  `handle_remove` from `src/backend/src/build_service.rs`, with the compiler
  treated as an oracle `FileId → BuildOutcome`.
- `SlotCell.get_or_init` / `SlotCell.reset` from
  `src/backend/src/system_world.rs`, instrumented with flags recording
  whether the loader and the decoder ran.

UUIDs are modelled as `Nat`; diagnostic and warning payloads are opaque
`Nat`s; file contents are `String`s.  Filesystem state (the set of fragment
files `build/<uuid>.html`) is modelled as an association list from uuid to
contents.
-/

deriving instance DecidableEq for Except

/-- A typst `FileId`: an optional package qualifier and a virtual path
(`src/backend/src/build_service.rs` always constructs project-local ids as
`FileId::new(None, virtual_path)`). -/
structure FileId where
  package : Option String
  vpath : String
deriving DecidableEq, Repr

/-- The per-note payload the build pipeline hands to the notes service
(`NoteData` in `src/backend/src/build_service.rs`, `CreateNoteMetadata` in
`src/backend/src/notes_service.rs`). -/
structure NoteData where
  title : String
  id : Nat
  links : List Nat
deriving DecidableEq, Repr

/-- Directed simple graph, the fragment of `petgraph::DiGraphMap` the code
uses.  Node and edge lists are kept in insertion order, matching the graph
map's iteration order. -/
structure DiGraph (α : Type) where
  nodes : List α
  edges : List (α × α)
deriving DecidableEq, Repr

def DiGraph.empty {α : Type} : DiGraph α := ⟨[], []⟩

def DiGraph.addNode {α : Type} [DecidableEq α] (g : DiGraph α) (a : α) : DiGraph α :=
  if a ∈ g.nodes then g else { g with nodes := g.nodes ++ [a] }

def DiGraph.addEdge {α : Type} [DecidableEq α] (g : DiGraph α) (u v : α) : DiGraph α :=
  let g1 := (g.addNode u).addNode v
  if (u, v) ∈ g1.edges then g1 else { g1 with edges := g1.edges ++ [(u, v)] }

def DiGraph.removeEdge {α : Type} [DecidableEq α] (g : DiGraph α) (u v : α) : DiGraph α :=
  { g with edges := g.edges.filter (fun e => decide (e ≠ (u, v))) }

def DiGraph.removeNode {α : Type} [DecidableEq α] (g : DiGraph α) (a : α) : DiGraph α :=
  { nodes := g.nodes.filter (fun x => decide (x ≠ a)),
    edges := g.edges.filter (fun e => decide (e.1 ≠ a) && decide (e.2 ≠ a)) }

def DiGraph.containsNode {α : Type} [DecidableEq α] (g : DiGraph α) (a : α) : Bool :=
  decide (a ∈ g.nodes)

/-- Outgoing neighbors, in edge-insertion order (`neighbors` /
`neighbors_directed(_, Outgoing)` on a `DiGraphMap`). -/
def DiGraph.outNeighbors {α : Type} [DecidableEq α] (g : DiGraph α) (u : α) : List α :=
  (g.edges.filter (fun e => decide (e.1 = u))).map Prod.snd

/-- Incoming neighbors (`neighbors_directed(_, Incoming)`). -/
def DiGraph.inNeighbors {α : Type} [DecidableEq α] (g : DiGraph α) (v : α) : List α :=
  (g.edges.filter (fun e => decide (e.2 = v))).map Prod.fst

/-- One round of `petgraph::visit::Bfs`: pop the head of the queue, emit it,
enqueue its unvisited successors. -/
def DiGraph.bfsAux {α : Type} [DecidableEq α] (g : DiGraph α) :
    Nat → List α → List α → List α
  | 0, _, _ => []
  | _ + 1, [], _ => []
  | fuel + 1, j :: queue, visited =>
      let ns := (g.outNeighbors j).filter (fun k => decide (k ∉ visited))
      j :: g.bfsAux fuel (queue ++ ns) (visited ++ ns)

/-- Nodes reachable from `i` along outgoing edges, in BFS order, starting
with `i` itself (`Bfs::new(&graph, i)` yields `i` first even when `i` is not
a node). -/
def DiGraph.bfsFrom {α : Type} [DecidableEq α] (g : DiGraph α) (i : α) : List α :=
  g.bfsAux (g.nodes.length + g.edges.length + 1) [i] [i]

/-- Association-list map: lookup of the first binding of a key. -/
def lookupA {κ ν : Type} [DecidableEq κ] : List (κ × ν) → κ → Option ν
  | [], _ => none
  | (k, v) :: rest, k' => if k = k' then some v else lookupA rest k'

/-- Association-list map: remove all bindings of a key (`HashMap::remove`). -/
def eraseA {κ ν : Type} [DecidableEq κ] (l : List (κ × ν)) (k : κ) : List (κ × ν) :=
  l.filter (fun p => decide (p.1 ≠ k))

/-- Association-list map: replace the binding of a key (`HashMap::insert`). -/
def insertA {κ ν : Type} [DecidableEq κ] (l : List (κ × ν)) (k : κ) (v : ν) : List (κ × ν) :=
  eraseA l k ++ [(k, v)]

/-- Broadcast messages fanned out to subscribers (spec §4.6/§4.8). -/
inductive Broadcast where
  | update (batch : List NoteData)
  | removeMsg (ids : List Nat)
deriving DecidableEq, Repr

def Broadcast.isUpdate : Broadcast → Bool
  | .update _ => true
  | .removeMsg _ => false

/-- The `Update` messages of a broadcast log. -/
def updatesOf (l : List Broadcast) : List Broadcast :=
  l.filter Broadcast.isUpdate

/-- A per-source build result as received by the notes service:
`Result<Warned<Vec<NoteData>>, EcoVec<SourceDiagnostic>>` with opaque
warning/diagnostic payloads. -/
abbrev NotesResult := Except Nat (Nat × List NoteData)

/-- `NotesServiceState` (`src/backend/src/notes_service.rs`), extended with
the filesystem model `fragments` (the `build/<uuid>.html` files) and the
readiness/broadcast fields (`ready`, `sent`) that the truncated service
source only declares. -/
structure NotesState where
  links : DiGraph Nat
  metadata : List (Nat × (String × FileId))
  fileIds : List (FileId × List Nat)
  errors : List (FileId × Except Nat Nat)
  fragments : List (Nat × String)
  ready : Bool
  sent : List Broadcast
deriving DecidableEq, Repr

/-- `NotesServiceState::create_note`.  The `unwrap` on
`file_ids.get_mut(&file_id)` is a panic, modelled as `none`. -/
def createNote (s : NotesState) (f : FileId) (d : NoteData) : Option NotesState :=
  let links1 := s.links.addNode d.id
  let links2 := d.links.foldl (fun g j => g.addEdge d.id j) links1
  match lookupA s.fileIds f with
  | some is =>
      some { s with
        links := links2,
        fileIds := insertA s.fileIds f (is ++ [d.id]),
        metadata := insertA s.metadata d.id (d.title, f) }
  | none => none

/-- Fold a per-note action over a batch, propagating a panic. -/
def foldNotes (step : NotesState → FileId → NoteData → Option NotesState) :
    NotesState → FileId → List NoteData → Option NotesState
  | s, _, [] => some s
  | s, f, d :: rest =>
      match step s f d with
      | some s1 => foldNotes step s1 f rest
      | none => none

/-- `NotesServiceState::create_notes`. -/
def createNotes (s : NotesState) (f : FileId) (r : NotesResult) : Option NotesState :=
  match r with
  | .ok (w, notes) =>
      foldNotes createNote
        { s with
          errors := insertA s.errors f (.ok w),
          fileIds := insertA s.fileIds f [] }
        f notes
  | .error e => some { s with errors := insertA s.errors f (.error e) }

/-- `NotesServiceState::update_note`: replace the note's outgoing edges,
re-append its id, rewrite title and owner.  The `unwrap` is a panic. -/
def updateNote (s : NotesState) (f : FileId) (d : NoteData) : Option NotesState :=
  let js := s.links.outNeighbors d.id
  let links1 := js.foldl (fun g j => g.removeEdge d.id j) s.links
  let links2 := d.links.foldl (fun g j => g.addEdge d.id j) links1
  match lookupA s.fileIds f with
  | some is =>
      some { s with
        links := links2,
        fileIds := insertA s.fileIds f (is ++ [d.id]),
        metadata := insertA s.metadata d.id (d.title, f) }
  | none => none

/-- One entry of `NotesServiceState::update_notes`: on `Ok`, store the
warnings, clear `ids[file_id]` (the `unwrap` panics when the key is absent),
then update each note; on `Err`, store the diagnostics only. -/
def updateNotesStep (s : NotesState) (f : FileId) (r : NotesResult) : Option NotesState :=
  match r with
  | .ok (w, notes) =>
      match lookupA s.fileIds f with
      | some _ =>
          foldNotes updateNote
            { s with
              errors := insertA s.errors f (.ok w),
              fileIds := insertA s.fileIds f [] }
            f notes
      | none => none
  | .error e => some { s with errors := insertA s.errors f (.error e) }

/-- `NotesServiceState::update_notes` over a whole batch. -/
def updateNotes (s : NotesState) : List (FileId × NotesResult) → Option NotesState
  | [] => some s
  | (f, r) :: rest =>
      match updateNotesStep s f r with
      | some s1 => updateNotes s1 rest
      | none => none

/-- The body of `remove_notes`' per-id loop: drop the title/owner entry and
the link-graph node. -/
def removeNoteId (s : NotesState) (i : Nat) : NotesState :=
  { s with metadata := eraseA s.metadata i, links := s.links.removeNode i }

/-- `NotesServiceState::remove_notes` as present in the service source:
drop `errors[file_id]`; `file_ids.remove` both erases the entry and returns
its value, and if a value was present each of its ids loses its title,
owner and link-graph node. -/
def removeNotes (s : NotesState) (f : FileId) : NotesState :=
  let s1 := { s with errors := eraseA s.errors f, fileIds := eraseA s.fileIds f }
  match lookupA s.fileIds f with
  | some is => is.foldl removeNoteId s1
  | none => s1

/-- Modelled from the spec: the fragment unlinking and `Remove(ids)`
broadcast of `remove_notes` (spec §4.6).  The service source in the
repository snapshot is truncated (its broadcast field and the
`set_build_finished` operation used by `build_service.rs` are missing), so
this part follows the spec's words on top of the source-derived
`removeNotes`. -/
def removeNotesFull (s : NotesState) (f : FileId) : NotesState :=
  let is := (lookupA s.fileIds f).getD []
  let s1 := removeNotes s f
  let s2 := { s1 with fragments := is.foldl (fun l i => eraseA l i) s1.fragments }
  { s2 with sent := s2.sent ++ [Broadcast.removeMsg is] }

/-- Modelled from the spec: `create_notes` with its readiness-gated
broadcast (spec §4.6): if the readiness event has fired and the batch is
non-empty, broadcast `Update(batch)`. -/
def createNotesFull (s : NotesState) (f : FileId) (r : NotesResult) : Option NotesState :=
  match r with
  | .ok (w, notes) =>
      (createNotes s f (.ok (w, notes))).map fun s1 =>
        if s.ready && !notes.isEmpty then
          { s1 with sent := s1.sent ++ [Broadcast.update notes] }
        else s1
  | .error e => createNotes s f (.error e)

/-- All `Ok` note data of an update batch, in order. -/
def batchNotes (batch : List (FileId × NotesResult)) : List NoteData :=
  batch.foldl
    (fun acc p => match p.2 with | .ok (_, ns) => acc ++ ns | .error _ => acc) []

/-- Modelled from the spec: `update_notes` accumulating a single `Update`
broadcast emitted at the end of the batch, gated on readiness (spec §4.6). -/
def updateNotesFull (s : NotesState) (batch : List (FileId × NotesResult)) :
    Option NotesState :=
  (updateNotes s batch).map fun s1 =>
    if s.ready then { s1 with sent := s1.sent ++ [Broadcast.update (batchNotes batch)] }
    else s1

/-- Modelled from the spec: `set_build_finished` fires the one-shot
readiness event (spec §4.6/§4.7). -/
def setBuildFinished (s : NotesState) : NotesState :=
  { s with ready := true }

/-- The i/o failure surfaced by `tokio::fs::read_to_string` on a missing
fragment file. -/
inductive IoErr where
  | notFound
deriving DecidableEq, Repr

/-- `NotesServiceState::get_note_content`: if the uuid is a node of the link
graph, read `build/<uuid>.html` (from the `fragments` filesystem model),
else return absent. -/
def getNoteContent (s : NotesState) (i : Nat) : Except IoErr (Option String) :=
  if s.links.containsNode i then
    match lookupA s.fragments i with
    | some c => .ok (some c)
    | none => .error IoErr.notFound
  else .ok none

/-- The response payload of `get_note_metadata`. -/
structure NoteMetadataOut where
  title : String
  links : List Nat
  backlinks : List Nat
deriving DecidableEq, Repr

/-- `NotesServiceState::get_note_metadata`.  The `self.metadata[&id]` index
panics when the entry is absent; the outer `none` models that panic. -/
def getNoteMetadata (s : NotesState) (i : Nat) : Option (Option NoteMetadataOut) :=
  if s.links.containsNode i then
    match lookupA s.metadata i with
    | some (t, _) =>
        some (some ⟨t, s.links.outNeighbors i, s.links.inNeighbors i⟩)
    | none => none
  else some none

/-- The outcome of one `build` invocation (`src/backend/src/build_service.rs`):
a successful compile carries opaque warnings, the extracted note data and
the captured dependency set (as a list, standing for one iteration order of
the `HashSet`); `errB` is a compile failure; `ioErr` is a fragment-write
failure. -/
inductive BuildOutcome where
  | okB (w : Nat) (notes : List NoteData) (deps : List FileId)
  | errB (d : Nat)
  | ioErr
deriving DecidableEq, Repr

/-- A message posted to the `NotesService` by the coordinator. -/
inductive ServiceCall where
  | createCall (f : FileId) (r : NotesResult)
  | updateCall (batch : List (FileId × NotesResult))
  | removeCall (f : FileId)
deriving DecidableEq, Repr

/-- The coordinator state the claims are about: the file-level dependency
graph and the set of ids tracked as source roots
(`BuildService.graph`, `BuildService.is_source`). -/
structure CoordState where
  graph : DiGraph FileId
  isSource : List FileId
deriving DecidableEq, Repr

def CoordState.initial : CoordState := ⟨DiGraph.empty, []⟩

/-- Result of one coordinator transition: the new state, the trace of
`build` invocations, the service calls posted, and whether the cancellation
token was cancelled (fatal write failure). -/
structure CoordResult where
  state : CoordState
  compiled : List FileId
  calls : List ServiceCall
  cancelled : Bool
deriving DecidableEq, Repr

/-- `BuildService::handle_create`, with the compile as an oracle.  On
success the node `i` and one edge `i → j` per captured dependency are added
(no package filter, and `is_source` is not touched anywhere here). -/
def handleCreate (s : CoordState) (i : FileId) (compile : FileId → BuildOutcome) :
    CoordResult :=
  match compile i with
  | .okB w notes deps =>
      let g1 := s.graph.addNode i
      let g2 := deps.foldl (fun g j => g.addEdge i j) g1
      ⟨⟨g2, s.isSource⟩, [i], [.createCall i (.ok (w, notes))], false⟩
  | .errB d => ⟨s, [i], [.createCall i (.error d)], false⟩
  | .ioErr => ⟨s, [i], [], true⟩

/-- The `dependents` vector of `BuildService::handle_modify`: `i` is pushed
unconditionally, then every BFS-reachable node (the BFS starts by yielding
`i` itself) that is in the source-root set is appended. -/
def dependentsOf (g : DiGraph FileId) (src : List FileId) (i : FileId) : List FileId :=
  (g.bfsFrom i).foldl (fun acc j => if j ∈ src then acc ++ [j] else acc) [i]

/-- The per-dependent loop body of `handle_modify`: on a successful compile
of `j`, replace `j`'s incoming edges by `d → j` for each project-local
captured dependency `d` and record the result; on compile error record the
error; on a write error cancel (and record nothing). -/
def modifyStep (compile : FileId → BuildOutcome)
    (acc : DiGraph FileId × List (FileId × NotesResult) × Bool) (j : FileId) :
    DiGraph FileId × List (FileId × NotesResult) × Bool :=
  match compile j with
  | .okB w notes deps =>
      let ks := acc.1.inNeighbors j
      let g1 := ks.foldl (fun g k => g.removeEdge k j) acc.1
      let g2 := deps.foldl (fun g k => if k.package = none then g.addEdge k j else g) g1
      (g2, acc.2.1 ++ [(j, .ok (w, notes))], acc.2.2)
  | .errB d => (acc.1, acc.2.1 ++ [(j, .error d)], acc.2.2)
  | .ioErr => (acc.1, acc.2.1, true)

/-- `BuildService::handle_modify`: compile the dependents in BFS order from
`i` and post the collected results as one `update_notes` batch.  (The
per-slot `reset` calls touch only the file-slot cache, which is modelled
separately by `SlotCell`.) -/
def handleModify (s : CoordState) (i : FileId) (compile : FileId → BuildOutcome) :
    CoordResult :=
  let ds := dependentsOf s.graph s.isSource i
  let out := ds.foldl (modifyStep compile) (s.graph, [], false)
  ⟨⟨out.1, s.isSource⟩, ds, [.updateCall out.2.1], out.2.2⟩

/-- `BuildService::handle_remove`: drop the node and the source-root mark,
then post `remove_notes`. -/
def handleRemove (s : CoordState) (i : FileId) : CoordResult :=
  ⟨⟨s.graph.removeNode i, s.isSource.erase i⟩, [], [.removeCall i], false⟩

/-- Coordinator states reachable from startup.  Every dispatch site
(`BuildService::start` and the watcher loop) constructs the seed id as
`FileId::new(None, path)`, so the argument of `handle_create` and
`handle_modify` is always project-local. -/
inductive Reachable : CoordState → Prop where
  | init : Reachable CoordState.initial
  | create : ∀ s i compile, Reachable s → i.package = none →
      Reachable (handleCreate s i compile).state
  | modify : ∀ s i compile, Reachable s → i.package = none →
      Reachable (handleModify s i compile).state
  | remove : ∀ s i, Reachable s → Reachable (handleRemove s i).state

/-- Every file-level edge has a project-local source file. -/
def edgesLocal (s : CoordState) : Prop :=
  ∀ e ∈ s.graph.edges, e.1.package = none

/-- Claim C4 as stated by the spec: every edge target is a source root and
every node is project-local. -/
def c4ClaimHolds (s : CoordState) : Prop :=
  (∀ e ∈ s.graph.edges, e.2 ∈ s.isSource) ∧ (∀ n ∈ s.graph.nodes, n.package = none)

/-- Claim C2 as stated by the spec: the compile trace of `handle_modify i`
is exactly the source roots reachable from `i` (including `i`), in BFS
order. -/
def c2ClaimHolds (s : CoordState) (i : FileId) (compile : FileId → BuildOutcome) : Prop :=
  (handleModify s i compile).compiled
    = (s.graph.bfsFrom i).filter (fun j => decide (j ∈ s.isSource))

/-- The failure modes of a slot-cell access (`FileError` in typst). -/
inductive FileErr where
  | notFound
  | isDirectory
  | accessDenied
  | utf8
deriving DecidableEq, Repr

/-- `SlotCell` (`src/backend/src/system_world.rs`): a lazily populated
cached value with a content fingerprint and an accessed-this-build flag. -/
structure SlotCell (T : Type) where
  data : Option (Except FileErr T)
  fingerprint : Nat
  accessed : Bool
deriving DecidableEq, Repr

def SlotCell.new {T : Type} : SlotCell T := ⟨none, 0, false⟩

/-- `SlotCell::reset`: clear only the accessed flag. -/
def SlotCell.reset {T : Type} (c : SlotCell T) : SlotCell T :=
  { c with accessed := false }

/-- The outcome of `SlotCell::get_or_init`, instrumented with whether the
loader closure ran (`didLoad`) and whether the decode closure `f` ran
(`didDecode`). -/
structure AccessOut (T : Type) where
  value : Except FileErr T
  cell : SlotCell T
  didLoad : Bool
  didDecode : Bool
deriving DecidableEq, Repr

/-- The tail of `get_or_init` after the within-build early return: load and
hash the contents, reuse the cached value on a fingerprint match, otherwise
decode (`f`) with the previous successfully decoded value, storing the
result either way. -/
def SlotCell.loadAndDecode {T : Type} (c : SlotCell T)
    (load : Except FileErr (List Nat)) (hash : Except FileErr (List Nat) → Nat)
    (f : List Nat → Option T → Except FileErr T) : AccessOut T :=
  let fp := hash load
  let c1 : SlotCell T := { c with accessed := true, fingerprint := fp }
  match c.data with
  | some d =>
      if c.fingerprint = fp then ⟨d, c1, true, false⟩
      else
        match load with
        | .ok bytes =>
            let prev := match d with | .ok v => some v | .error _ => none
            let v := f bytes prev
            ⟨v, { c1 with data := some v }, true, true⟩
        | .error e => ⟨.error e, { c1 with data := some (.error e) }, true, false⟩
  | none =>
      match load with
      | .ok bytes =>
          let v := f bytes none
          ⟨v, { c1 with data := some v }, true, true⟩
      | .error e => ⟨.error e, { c1 with data := some (.error e) }, true, false⟩

/-- `SlotCell::get_or_init`: the loader is an oracle for the (pure within
one access) result of `read`, the hash and the decoder `f` are parameters. -/
def SlotCell.getOrInit {T : Type} (c : SlotCell T)
    (load : Except FileErr (List Nat)) (hash : Except FileErr (List Nat) → Nat)
    (f : List Nat → Option T → Except FileErr T) : AccessOut T :=
  match c.accessed, c.data with
  | true, some d => ⟨d, { c with accessed := true }, false, false⟩
  | _, _ => c.loadAndDecode load hash f

/-- Claim C1 as stated by the spec: after `remove_notes`, the removed ids
are gone from the title table, the link graph and the build directory, and
the fragment file `build/<id>.html` exists iff `id` is a node of the note
graph. -/
def c1ClaimHolds (s : NotesState) (f : FileId) : Prop :=
  (∀ i ∈ (lookupA s.fileIds f).getD [],
      lookupA (removeNotesFull s f).metadata i = none
      ∧ (removeNotesFull s f).links.containsNode i = false
      ∧ lookupA (removeNotesFull s f).fragments i = none)
  ∧ ∀ u, (lookupA (removeNotesFull s f).fragments u).isSome
      ↔ (removeNotesFull s f).links.containsNode u = true

/-- Concrete states for the counterexamples and witnesses. -/
def fidA : FileId := ⟨none, "notes/a.typ"⟩

def fidB : FileId := ⟨none, "notes/b.typ"⟩

def fidPkg : FileId := ⟨some "preview/pkg/0.1.0", "lib.typ"⟩

/-- The single note of `a.typ`: uuid `0`, one link to the (dangling)
uuid `1`. -/
def exNote : NoteData := ⟨"A", 0, [1]⟩

/-- Service state before any call, with `build/0.html` on disk. -/
def exS0 : NotesState :=
  ⟨DiGraph.empty, [], [], [], [(0, "x")], false, []⟩

/-- Service state after `create_notes(a, Ok([note 0 → 1]))`: node `1` is a
dangling link target. -/
def exDang : NotesState :=
  (createNotes exS0 fidA (.ok (0, [exNote]))).getD exS0

/-- Coordinator state after `handle_create a` where the compile captured
the package file as a dependency. -/
def c4state : CoordState :=
  (handleCreate CoordState.initial fidA (fun _ => .okB 0 [exNote] [fidPkg])).state

/-- A two-node coordinator graph for the C2 witness: `a → b`, `b` a source
root. -/
def c2wState : CoordState :=
  ⟨⟨[fidA, fidB], [(fidA, fidB)]⟩, [fidB]⟩

/-- The single `update_notes` batch accumulated by `handle_modify`. -/
def modifyBatch (s : CoordState) (i : FileId) (compile : FileId → BuildOutcome) :
    List (FileId × NotesResult) :=
  ((dependentsOf s.graph s.isSource i).foldl (modifyStep compile) (s.graph, [], false)).2.1

/-- `handle_create` on the initial state with a successful compile that
captured the project-local dependency `b`. -/
def c3Result : CoordResult :=
  handleCreate CoordState.initial fidA (fun _ => .okB 0 [exNote] [fidB])

/-- A second note, used by the broadcast witnesses. -/
def noteB : NoteData := ⟨"B", 2, []⟩

/-- `create_notes` applied on a not-yet-ready state (the startup path). -/
def c5resBefore : NotesState :=
  (createNotesFull exS0 fidA (.ok (0, [exNote]))).getD exS0

/-- `create_notes` applied after the readiness event has fired. -/
def c5resAfter : NotesState :=
  (createNotesFull (setBuildFinished exDang) fidB (.ok (0, [noteB]))).getD exS0

/-- Slot cells for the C8 witness: `5` plays the stored fingerprint and the
hash of the loaded contents. -/
def c8cellA : SlotCell Nat := ⟨some (.ok 7), 5, true⟩

def c8cellB : SlotCell Nat := ⟨some (.ok 7), 5, false⟩

/-! ## Association-list and graph lemmas -/

theorem lookupA_cons {κ ν : Type} [DecidableEq κ] (k : κ) (v : ν) (l : List (κ × ν))
    (k' : κ) : lookupA ((k, v) :: l) k' = if k = k' then some v else lookupA l k' := rfl

theorem eraseA_cons {κ ν : Type} [DecidableEq κ] (p : κ × ν) (l : List (κ × ν)) (k : κ) :
    eraseA (p :: l) k = if p.1 = k then eraseA l k else p :: eraseA l k := by
  by_cases h : p.1 = k <;> simp [eraseA, List.filter_cons, h]

theorem lookupA_filter_none {κ ν : Type} [DecidableEq κ] (l : List (κ × ν))
    (q : κ × ν → Bool) (k : κ) (h : lookupA l k = none) :
    lookupA (l.filter q) k = none := by
  induction l with
  | nil => rfl
  | cons p rest ih =>
      obtain ⟨k1, v1⟩ := p
      rw [lookupA_cons] at h
      by_cases hk : k1 = k
      · simp [hk] at h
      · rw [if_neg hk] at h
        rw [List.filter_cons]
        by_cases hq : q (k1, v1) = true
        · rw [if_pos hq, lookupA_cons, if_neg hk]
          exact ih h
        · simp only [hq, if_false]
          exact ih h

theorem lookupA_eraseA_self {κ ν : Type} [DecidableEq κ] (l : List (κ × ν)) (k : κ) :
    lookupA (eraseA l k) k = none := by
  induction l with
  | nil => rfl
  | cons p rest ih =>
      obtain ⟨k1, v1⟩ := p
      rw [eraseA_cons]
      by_cases h : k1 = k
      · simpa [h] using ih
      · simp only [h, if_false]
        rw [lookupA_cons, if_neg h]
        exact ih

theorem lookupA_eraseA_none {κ ν : Type} [DecidableEq κ] (l : List (κ × ν)) (j k : κ)
    (h : lookupA l k = none) : lookupA (eraseA l j) k = none :=
  lookupA_filter_none l _ k h

theorem lookupA_insertA_self {κ ν : Type} [DecidableEq κ] (l : List (κ × ν)) (k : κ)
    (v : ν) : lookupA (insertA l k v) k = some v := by
  have : ∀ m : List (κ × ν), lookupA m k = none → lookupA (m ++ [(k, v)]) k = some v := by
    intro m
    induction m with
    | nil => intro _; simp [lookupA]
    | cons p rest ih =>
        obtain ⟨k1, v1⟩ := p
        rw [lookupA_cons]
        by_cases h : k1 = k
        · simp [h]
        · rw [if_neg h]
          intro hn
          rw [List.cons_append, lookupA_cons, if_neg h]
          exact ih hn
  exact this (eraseA l k) (lookupA_eraseA_self l k)

theorem foldl_eraseA_absent {κ ν : Type} [DecidableEq κ] (is : List κ)
    (l : List (κ × ν)) (k : κ) (h : lookupA l k = none) :
    lookupA (is.foldl (fun acc j => eraseA acc j) l) k = none := by
  induction is generalizing l with
  | nil => exact h
  | cons j rest ih => exact ih (eraseA l j) (lookupA_eraseA_none l j k h)

theorem foldl_eraseA_mem {κ ν : Type} [DecidableEq κ] (is : List κ)
    (l : List (κ × ν)) (k : κ) (h : k ∈ is) :
    lookupA (is.foldl (fun acc j => eraseA acc j) l) k = none := by
  induction is generalizing l with
  | nil => cases h
  | cons j rest ih =>
      rcases List.mem_cons.mp h with h1 | h2
      · subst h1
        exact foldl_eraseA_absent rest (eraseA l k) k (lookupA_eraseA_self l k)
      · exact ih (eraseA l j) h2

theorem containsNode_removeNode_self {α : Type} [DecidableEq α] (g : DiGraph α)
    (a : α) : (g.removeNode a).containsNode a = false := by
  simp [DiGraph.removeNode, DiGraph.containsNode, List.mem_filter]

theorem containsNode_removeNode_mono {α : Type} [DecidableEq α] (g : DiGraph α)
    (j i : α) (h : g.containsNode i = false) :
    (g.removeNode j).containsNode i = false := by
  simp only [DiGraph.containsNode, DiGraph.removeNode, decide_eq_false_iff_not] at *
  intro hmem
  exact h (List.mem_filter.mp hmem).1

theorem foldl_removeNode_absent {α : Type} [DecidableEq α] (is : List α) (g : DiGraph α)
    (i : α) (h : g.containsNode i = false) :
    ((is.foldl (fun g j => g.removeNode j) g).containsNode i) = false := by
  induction is generalizing g with
  | nil => exact h
  | cons j rest ih => exact ih (g.removeNode j) (containsNode_removeNode_mono g j i h)

theorem foldl_removeNode_mem {α : Type} [DecidableEq α] (is : List α) (g : DiGraph α)
    (i : α) (h : i ∈ is) :
    ((is.foldl (fun g j => g.removeNode j) g).containsNode i) = false := by
  induction is generalizing g with
  | nil => cases h
  | cons j rest ih =>
      rcases List.mem_cons.mp h with h1 | h2
      · subst h1
        exact foldl_removeNode_absent rest (g.removeNode i) i
          (containsNode_removeNode_self g i)
      · exact ih (g.removeNode j) h2

theorem foldl_removeNoteId_fields (is : List Nat) (t : NotesState) :
    (is.foldl removeNoteId t).metadata = is.foldl (fun m j => eraseA m j) t.metadata
    ∧ (is.foldl removeNoteId t).links = is.foldl (fun g j => g.removeNode j) t.links
    ∧ (is.foldl removeNoteId t).fileIds = t.fileIds
    ∧ (is.foldl removeNoteId t).errors = t.errors
    ∧ (is.foldl removeNoteId t).fragments = t.fragments
    ∧ (is.foldl removeNoteId t).ready = t.ready
    ∧ (is.foldl removeNoteId t).sent = t.sent := by
  induction is generalizing t with
  | nil => exact ⟨rfl, rfl, rfl, rfl, rfl, rfl, rfl⟩
  | cons j rest ih =>
      simpa [removeNoteId] using ih (removeNoteId t j)

/-! ## Claims C1, C6, C7, C9, C10 (notes service) -/

theorem removeNotesFull_eval (s : NotesState) (f : FileId) (is : List Nat)
    (hlk : lookupA s.fileIds f = some is) :
    removeNotesFull s f =
      { is.foldl removeNoteId
          { s with errors := eraseA s.errors f, fileIds := eraseA s.fileIds f } with
        fragments := is.foldl (fun l i => eraseA l i)
          (is.foldl removeNoteId
            { s with errors := eraseA s.errors f, fileIds := eraseA s.fileIds f }).fragments,
        sent := (is.foldl removeNoteId
            { s with errors := eraseA s.errors f, fileIds := eraseA s.fileIds f }).sent
          ++ [Broadcast.removeMsg is] } := by
  unfold removeNotesFull removeNotes
  rw [hlk]
  rfl

/-- Claim C1 (amended): after `remove_notes(file_id)`, every uuid that was
in `ids[file_id]` has its title/owner entry, its link-graph node and its
fragment file `build/<uuid>.html` removed, `errors[file_id]` and
`ids[file_id]` are dropped, and `Remove(ids)` is broadcast.  (The original
claim's "fragment exists iff id is in the note graph" fails: dangling link
targets stay in the graph with no fragment file, see the counterexample.) -/
theorem C1_remove_amended (s : NotesState) (f : FileId) (i : Nat)
    (hi : i ∈ (lookupA s.fileIds f).getD []) :
    lookupA (removeNotesFull s f).metadata i = none
    ∧ (removeNotesFull s f).links.containsNode i = false
    ∧ lookupA (removeNotesFull s f).fragments i = none
    ∧ lookupA (removeNotesFull s f).errors f = none
    ∧ lookupA (removeNotesFull s f).fileIds f = none
    ∧ (removeNotesFull s f).sent
        = s.sent ++ [Broadcast.removeMsg ((lookupA s.fileIds f).getD [])] := by
  cases hlk : lookupA s.fileIds f with
  | none => rw [hlk] at hi; cases hi
  | some is =>
      rw [hlk] at hi
      simp only [Option.getD_some] at hi
      rw [removeNotesFull_eval s f is hlk]
      simp only [Option.getD_some]
      obtain ⟨hm, hl, hfi, he, hfr, hrd, hs⟩ :=
        foldl_removeNoteId_fields is
          { s with errors := eraseA s.errors f, fileIds := eraseA s.fileIds f }
      refine ⟨?_, ?_, ?_, ?_, ?_, ?_⟩
      · show lookupA (is.foldl removeNoteId _).metadata i = none
        rw [hm]
        exact foldl_eraseA_mem is _ i hi
      · show (is.foldl removeNoteId _).links.containsNode i = false
        rw [hl]
        exact foldl_removeNode_mem is _ i hi
      · show lookupA (is.foldl (fun l i => eraseA l i) _) i = none
        rw [hfr]
        exact foldl_eraseA_mem is _ i hi
      · show lookupA (is.foldl removeNoteId _).errors f = none
        rw [he]
        exact lookupA_eraseA_self s.errors f
      · show lookupA (is.foldl removeNoteId _).fileIds f = none
        rw [hfi]
        exact lookupA_eraseA_self s.fileIds f
      · show (is.foldl removeNoteId _).sent ++ [Broadcast.removeMsg is]
            = s.sent ++ [Broadcast.removeMsg is]
        rw [hs]

/-- Claim C1 counterexample: in the state reached by
`create_notes(a, Ok([note 0 → 1]))` with `build/0.html` on disk, removing
`a` leaves the dangling link target `1` as a node of the note graph while
no fragment file exists, so the claimed "fragment exists iff id is in the
note graph" equivalence is false. -/
theorem C1_cex : ¬ c1ClaimHolds exDang fidA := by
  intro h
  exact absurd ((h.2 1).mpr (by decide)) (by decide)

theorem C1_witness :
    lookupA (removeNotesFull exDang fidA).metadata 0 = none
    ∧ (removeNotesFull exDang fidA).links.containsNode 0 = false
    ∧ lookupA (removeNotesFull exDang fidA).fragments 0 = none
    ∧ lookupA (removeNotesFull exDang fidA).errors fidA = none
    ∧ lookupA (removeNotesFull exDang fidA).fileIds fidA = none
    ∧ (removeNotesFull exDang fidA).sent
        = exDang.sent ++ [Broadcast.removeMsg ((lookupA exDang.fileIds fidA).getD [])] :=
  C1_remove_amended exDang fidA 0 (by decide)

/-- Claim C6 (amended): `get_note_content` returns absent exactly when the
uuid is not a node of the link graph; for a dangling link target (a node
with no fragment file) it attempts the read and surfaces the i/o error. -/
theorem C6_get_note_content :
    (∀ s i, s.links.containsNode i = false → getNoteContent s i = .ok none)
    ∧ (∀ s i, s.links.containsNode i = true → lookupA s.fragments i = none →
        getNoteContent s i = .error IoErr.notFound) := by
  constructor
  · intro s i h
    simp [getNoteContent, h]
  · intro s i h1 h2
    simp [getNoteContent, h1, h2]

/-- Claim C6 counterexample: uuid `1` occurs only as a link target of note
`0`, yet `get_note_content(1)` is an i/o error, not absent, because the
dangling target is a node of the link graph. -/
theorem C6_cex :
    exDang.links.containsNode 1 = true
    ∧ lookupA exDang.metadata 1 = none
    ∧ getNoteContent exDang 1 = .error IoErr.notFound
    ∧ getNoteContent exDang 1 ≠ .ok none := by
  refine ⟨by decide, by decide, by decide, ?_⟩
  intro h
  rw [show getNoteContent exDang 1 = .error IoErr.notFound from by decide] at h
  cases h

theorem C6_witness :
    getNoteContent exS0 5 = .ok none
    ∧ getNoteContent exDang 1 = .error IoErr.notFound :=
  ⟨C6_get_note_content.1 exS0 5 (by decide),
   C6_get_note_content.2 exDang 1 (by decide) (by decide)⟩

/-- Claim C7 (confirmed): an `Err(diagnostics)` result stores the
diagnostics in `errors[file_id]` and leaves every other component of the
service state (link graph, titles/owners, per-file id lists, fragments)
exactly as before, in `create_notes`, in one `update_notes` entry, and in
an `update_notes` batch consisting of that entry. -/
theorem C7_err_preserves_state (s : NotesState) (f : FileId) (d : Nat) :
    createNotes s f (.error d) = some { s with errors := insertA s.errors f (.error d) }
    ∧ updateNotesStep s f (.error d)
        = some { s with errors := insertA s.errors f (.error d) }
    ∧ updateNotes s [(f, .error d)]
        = some { s with errors := insertA s.errors f (.error d) } :=
  ⟨rfl, rfl, rfl⟩

/-- Claim C9 (confirmed): if `ids[file_id]` is absent, `create_notes` with
an `Err` result records the diagnostics but still leaves `ids[file_id]`
absent, and a subsequent `update_notes` batch containing `(file_id, Ok(..))`
panics (the `unwrap` on the missing per-file id list), modelled as `none`. -/
theorem C9_update_after_err (s : NotesState) (f : FileId) (d w : Nat)
    (notes : List NoteData) (rest : List (FileId × NotesResult))
    (h : lookupA s.fileIds f = none) :
    createNotes s f (.error d) = some { s with errors := insertA s.errors f (.error d) }
    ∧ updateNotes { s with errors := insertA s.errors f (.error d) }
        ((f, .ok (w, notes)) :: rest) = none := by
  refine ⟨rfl, ?_⟩
  simp only [updateNotes, updateNotesStep]
  rw [h]

theorem C9_witness :
    createNotes exS0 fidB (.error 3)
      = some { exS0 with errors := insertA exS0.errors fidB (.error 3) }
    ∧ updateNotes { exS0 with errors := insertA exS0.errors fidB (.error 3) }
        [(fidB, .ok (0, [noteB]))] = none :=
  C9_update_after_err exS0 fidB 3 0 [noteB] [] (by decide)

/-- Claim C10 (confirmed): for a uuid that is a link-graph node without a
metadata entry (a dangling link target), `get_note_metadata` panics on the
metadata index (modelled as the outer `none`); it returns `Some` metadata
exactly for uuids that have both a graph node and a title/owner entry. -/
theorem C10_metadata_panic :
    (∀ s i, s.links.containsNode i = true → lookupA s.metadata i = none →
        getNoteMetadata s i = none)
    ∧ (∀ s i, (∃ m, getNoteMetadata s i = some (some m))
        ↔ (s.links.containsNode i = true ∧ (lookupA s.metadata i).isSome = true)) := by
  constructor
  · intro s i h1 h2
    simp [getNoteMetadata, h1, h2]
  · intro s i
    cases hc : s.links.containsNode i with
    | false => simp [getNoteMetadata, hc]
    | true =>
        cases hm : lookupA s.metadata i with
        | none => simp [getNoteMetadata, hc, hm]
        | some p =>
            obtain ⟨t, fo⟩ := p
            simp [getNoteMetadata, hc, hm]

theorem C10_witness :
    getNoteMetadata exDang 1 = none
    ∧ (∃ m, getNoteMetadata exDang 0 = some (some m)) :=
  ⟨C10_metadata_panic.1 exDang 1 (by decide) (by decide),
   (C10_metadata_panic.2 exDang 0).mpr (by decide)⟩

/-! ## Claims C2, C3, C4 (build coordinator) -/

theorem foldl_filterPush {α : Type} [DecidableEq α] (l : List α) (src : List α)
    (init : List α) :
    l.foldl (fun acc j => if j ∈ src then acc ++ [j] else acc) init
      = init ++ l.filter (fun j => decide (j ∈ src)) := by
  induction l generalizing init with
  | nil => simp
  | cons a l ih =>
      by_cases h : a ∈ src <;>
        simp [List.foldl_cons, List.filter_cons, h, ih, List.append_assoc]

theorem dependentsOf_eq (g : DiGraph FileId) (src : List FileId) (i : FileId) :
    dependentsOf g src i = i :: (g.bfsFrom i).filter (fun j => decide (j ∈ src)) := by
  unfold dependentsOf
  rw [foldl_filterPush]
  rfl

theorem modifyFold_results (compile : FileId → BuildOutcome) (l : List FileId) :
    ∀ (g : DiGraph FileId) (acc : List (FileId × NotesResult)) (c : Bool),
    (∀ j ∈ l, compile j ≠ .ioErr) →
    ((l.foldl (modifyStep compile) (g, acc, c)).2.1).map Prod.fst
      = acc.map Prod.fst ++ l := by
  induction l with
  | nil => intro g acc c _; simp
  | cons j rest ih =>
      intro g acc c h
      have hj : compile j ≠ .ioErr := h j (List.mem_cons_self j rest)
      have hrest : ∀ k ∈ rest, compile k ≠ .ioErr :=
        fun k hk => h k (List.mem_cons_of_mem j hk)
      rw [List.foldl_cons]
      cases hcj : compile j with
      | okB w notes deps =>
          simp only [modifyStep, hcj]
          rw [ih _ _ _ hrest]
          simp
      | errB d =>
          simp only [modifyStep, hcj]
          rw [ih _ _ _ hrest]
          simp
      | ioErr => exact absurd hcj hj

/-- Claim C2 (amended): `handle_modify(i)` compiles `i` unconditionally and
then every source root reachable from `i` in BFS order (`i` again if it is
itself in the source-root set), and posts the per-source results of the
non-cancelling compiles as a single `update_notes` batch whose entries are
in compile order. -/
theorem C2_modify_amended (s : CoordState) (i : FileId)
    (compile : FileId → BuildOutcome) (hnoio : ∀ j, compile j ≠ .ioErr) :
    (handleModify s i compile).compiled
        = i :: (s.graph.bfsFrom i).filter (fun j => decide (j ∈ s.isSource))
    ∧ (handleModify s i compile).calls
        = [ServiceCall.updateCall (modifyBatch s i compile)]
    ∧ (modifyBatch s i compile).map Prod.fst = (handleModify s i compile).compiled := by
  refine ⟨?_, rfl, ?_⟩
  · exact dependentsOf_eq s.graph s.isSource i
  · show (((dependentsOf s.graph s.isSource i).foldl (modifyStep compile)
        (s.graph, [], false)).2.1).map Prod.fst = dependentsOf s.graph s.isSource i
    rw [modifyFold_results compile _ _ _ _ (fun j _ => hnoio j)]
    rfl

/-- Claim C2 counterexample: with graph `{a}`, no edges and an empty
source-root set, the claimed compile set `R` is empty, yet `handle_modify a`
compiles `a`. -/
theorem C2_cex : ¬ c2ClaimHolds ⟨⟨[fidA], []⟩, []⟩ fidA (fun _ => .errB 0) := by
  unfold c2ClaimHolds
  decide

theorem C2_witness :
    (handleModify c2wState fidA (fun _ => .errB 0)).compiled
        = fidA :: (c2wState.graph.bfsFrom fidA).filter
            (fun j => decide (j ∈ c2wState.isSource))
    ∧ (handleModify c2wState fidA (fun _ => .errB 0)).calls
        = [ServiceCall.updateCall (modifyBatch c2wState fidA (fun _ => .errB 0))]
    ∧ (modifyBatch c2wState fidA (fun _ => .errB 0)).map Prod.fst
        = (handleModify c2wState fidA (fun _ => .errB 0)).compiled :=
  C2_modify_amended c2wState fidA (fun _ => .errB 0)
    (fun _ => by show BuildOutcome.errB 0 ≠ .ioErr; decide)

/-- Claim C3 (code bug): after a successful `handle_create a` the node, the
dependency edge and the posted `create_notes(a, Ok(..))` are all as claimed,
but the source-root set is still empty: no code path ever inserts into
`is_source`, contradicting the spec's "mark `i` as a source root". -/
theorem C3_create_no_source_mark :
    c3Result.state.isSource = []
    ∧ fidA ∈ c3Result.state.graph.nodes
    ∧ (fidA, fidB) ∈ c3Result.state.graph.edges
    ∧ c3Result.calls = [ServiceCall.createCall fidA (.ok (0, [exNote]))]
    ∧ c3Result.cancelled = false := by
  decide

theorem edges_addNode {α : Type} [DecidableEq α] (g : DiGraph α) (a : α) :
    (g.addNode a).edges = g.edges := by
  unfold DiGraph.addNode
  split <;> rfl

theorem mem_edges_addEdge {α : Type} [DecidableEq α] {g : DiGraph α} {u v : α}
    {e : α × α} (h : e ∈ (g.addEdge u v).edges) : e ∈ g.edges ∨ e = (u, v) := by
  have hg1 : ((g.addNode u).addNode v).edges = g.edges := by
    rw [edges_addNode, edges_addNode]
  simp only [DiGraph.addEdge] at h
  split at h
  · exact Or.inl (hg1 ▸ h)
  · have h2 : e ∈ ((g.addNode u).addNode v).edges ++ [(u, v)] := h
    rw [hg1] at h2
    rcases List.mem_append.mp h2 with h3 | h4
    · exact Or.inl h3
    · exact Or.inr (List.mem_singleton.mp h4)

theorem mem_edges_removeEdge {α : Type} [DecidableEq α] {g : DiGraph α} {u v : α}
    {e : α × α} (h : e ∈ (g.removeEdge u v).edges) : e ∈ g.edges := by
  unfold DiGraph.removeEdge at h
  exact (List.mem_filter.mp h).1

theorem mem_edges_removeNode {α : Type} [DecidableEq α] {g : DiGraph α} {a : α}
    {e : α × α} (h : e ∈ (g.removeNode a).edges) : e ∈ g.edges := by
  unfold DiGraph.removeNode at h
  exact (List.mem_filter.mp h).1

theorem local_foldl_addEdge_from (i : FileId) (deps : List FileId)
    (hi : i.package = none) :
    ∀ g : DiGraph FileId, (∀ e ∈ g.edges, e.1.package = none) →
    ∀ e ∈ (deps.foldl (fun g j => g.addEdge i j) g).edges, e.1.package = none := by
  induction deps with
  | nil => intro g hg; exact hg
  | cons j rest ih =>
      intro g hg
      rw [List.foldl_cons]
      apply ih
      intro e he
      rcases mem_edges_addEdge he with h1 | h2
      · exact hg e h1
      · rw [h2]; exact hi

theorem local_foldl_removeEdge (j : FileId) (ks : List FileId) :
    ∀ g : DiGraph FileId, (∀ e ∈ g.edges, e.1.package = none) →
    ∀ e ∈ (ks.foldl (fun g k => g.removeEdge k j) g).edges, e.1.package = none := by
  induction ks with
  | nil => intro g hg; exact hg
  | cons k rest ih =>
      intro g hg
      rw [List.foldl_cons]
      apply ih
      intro e he
      exact hg e (mem_edges_removeEdge he)

theorem local_foldl_addEdge_filtered (j : FileId) (deps : List FileId) :
    ∀ g : DiGraph FileId, (∀ e ∈ g.edges, e.1.package = none) →
    ∀ e ∈ (deps.foldl (fun g k => if k.package = none then g.addEdge k j else g) g).edges,
      e.1.package = none := by
  induction deps with
  | nil => intro g hg; exact hg
  | cons k rest ih =>
      intro g hg
      rw [List.foldl_cons]
      apply ih
      by_cases hk : k.package = none
      · rw [if_pos hk]
        intro e he
        rcases mem_edges_addEdge he with h1 | h2
        · exact hg e h1
        · rw [h2]; exact hk
      · rw [if_neg hk]
        exact hg

theorem local_modifyStep (compile : FileId → BuildOutcome) (j : FileId)
    (acc : DiGraph FileId × List (FileId × NotesResult) × Bool)
    (hg : ∀ e ∈ acc.1.edges, e.1.package = none) :
    ∀ e ∈ (modifyStep compile acc j).1.edges, e.1.package = none := by
  unfold modifyStep
  cases compile j with
  | okB w notes deps =>
      exact local_foldl_addEdge_filtered j deps _
        (local_foldl_removeEdge j (acc.1.inNeighbors j) acc.1 hg)
  | errB d => exact hg
  | ioErr => exact hg

theorem local_modifyFold (compile : FileId → BuildOutcome) (l : List FileId) :
    ∀ acc : DiGraph FileId × List (FileId × NotesResult) × Bool,
    (∀ e ∈ acc.1.edges, e.1.package = none) →
    ∀ e ∈ ((l.foldl (modifyStep compile) acc).1).edges, e.1.package = none := by
  induction l with
  | nil => intro acc h; exact h
  | cons j rest ih =>
      intro acc h
      rw [List.foldl_cons]
      exact ih (modifyStep compile acc j) (local_modifyStep compile j acc h)

theorem local_handleCreate (s : CoordState) (i : FileId)
    (compile : FileId → BuildOutcome) (hi : i.package = none) (hs : edgesLocal s) :
    edgesLocal (handleCreate s i compile).state := by
  unfold edgesLocal at *
  unfold handleCreate
  cases compile i with
  | okB w notes deps =>
      intro e he
      refine local_foldl_addEdge_from i deps hi (s.graph.addNode i) ?_ e he
      intro e1 he1
      rw [edges_addNode] at he1
      exact hs e1 he1
  | errB d => exact hs
  | ioErr => exact hs

theorem local_handleModify (s : CoordState) (i : FileId)
    (compile : FileId → BuildOutcome) (hs : edgesLocal s) :
    edgesLocal (handleModify s i compile).state := by
  intro e he
  exact local_modifyFold compile (dependentsOf s.graph s.isSource i)
    (s.graph, [], false) hs e he

/-- Claim C4 (amended): at every coordinator state reachable through
`handle_create` / `handle_modify` / `handle_remove`, every edge `u → v` of
the `FileGraph` has a project-local source `u`.  (The original claim fails:
`handle_create` adds edges `i → j` to every captured dependency without a
package filter, so edge targets need not be source roots and
package-qualified ids do become nodes — see the counterexample.) -/
theorem C4_edges_local (s : CoordState) (h : Reachable s) : edgesLocal s := by
  induction h with
  | init => intro e he; cases he
  | create s i compile hr hi ih => exact local_handleCreate s i compile hi ih
  | modify s i compile hr hi ih => exact local_handleModify s i compile ih
  | remove s i hr ih =>
      intro e he
      exact ih e (mem_edges_removeNode he)

/-- Claim C4 counterexample: the reachable state after `handle_create a`
with captured dependency `@preview/pkg` has an edge whose target is not a
source root and a package-qualified node. -/
theorem C4_cex : Reachable c4state ∧ ¬ c4ClaimHolds c4state := by
  constructor
  · exact Reachable.create CoordState.initial fidA
      (fun _ => .okB 0 [exNote] [fidPkg]) Reachable.init rfl
  · intro h
    exact absurd (h.2 fidPkg (by decide)) (by decide)

theorem C4_witness : edgesLocal c4state :=
  C4_edges_local c4state
    (Reachable.create CoordState.initial fidA
      (fun _ => .okB 0 [exNote] [fidPkg]) Reachable.init rfl)

/-! ## Claim C5 (broadcast gating, spec-modelled) -/

theorem createNote_frame (s : NotesState) (f : FileId) (d : NoteData) :
    ∀ s1, createNote s f d = some s1 → s1.ready = s.ready ∧ s1.sent = s.sent := by
  unfold createNote
  cases lookupA s.fileIds f with
  | none => intro s1 h; exact Option.noConfusion h
  | some is =>
      intro s1 h
      have h1 := Option.some.inj h
      subst h1
      exact ⟨rfl, rfl⟩

theorem updateNote_frame (s : NotesState) (f : FileId) (d : NoteData) :
    ∀ s1, updateNote s f d = some s1 → s1.ready = s.ready ∧ s1.sent = s.sent := by
  unfold updateNote
  cases lookupA s.fileIds f with
  | none => intro s1 h; exact Option.noConfusion h
  | some is =>
      intro s1 h
      have h1 := Option.some.inj h
      subst h1
      exact ⟨rfl, rfl⟩

theorem foldNotes_frame (step : NotesState → FileId → NoteData → Option NotesState)
    (hstep : ∀ s f d s1, step s f d = some s1 → s1.ready = s.ready ∧ s1.sent = s.sent) :
    ∀ (ds : List NoteData) (s : NotesState) (f : FileId) (s1 : NotesState),
      foldNotes step s f ds = some s1 → s1.ready = s.ready ∧ s1.sent = s.sent := by
  intro ds
  induction ds with
  | nil =>
      intro s f s1 h
      have h1 := Option.some.inj h
      subst h1
      exact ⟨rfl, rfl⟩
  | cons d rest ih =>
      intro s f s1 h
      unfold foldNotes at h
      cases hs : step s f d with
      | none => rw [hs] at h; exact Option.noConfusion h
      | some s2 =>
          rw [hs] at h
          have h2 := ih s2 f s1 h
          have h3 := hstep s f d s2 hs
          exact ⟨h2.1.trans h3.1, h2.2.trans h3.2⟩

theorem createNotes_frame (s : NotesState) (f : FileId) (r : NotesResult) :
    ∀ s1, createNotes s f r = some s1 → s1.ready = s.ready ∧ s1.sent = s.sent := by
  cases r with
  | ok p =>
      obtain ⟨w, notes⟩ := p
      intro s1 h
      have h2 := foldNotes_frame createNote createNote_frame notes
        { s with errors := insertA s.errors f (.ok w), fileIds := insertA s.fileIds f [] }
        f s1 h
      exact ⟨h2.1, h2.2⟩
  | error e =>
      intro s1 h
      have h1 := Option.some.inj h
      subst h1
      exact ⟨rfl, rfl⟩

theorem updateNotesStep_frame (s : NotesState) (f : FileId) (r : NotesResult) :
    ∀ s1, updateNotesStep s f r = some s1 → s1.ready = s.ready ∧ s1.sent = s.sent := by
  cases r with
  | ok p =>
      obtain ⟨w, notes⟩ := p
      unfold updateNotesStep
      cases lookupA s.fileIds f with
      | none => intro s1 h; exact Option.noConfusion h
      | some is =>
          intro s1 h
          have h2 := foldNotes_frame updateNote updateNote_frame notes
            { s with errors := insertA s.errors f (.ok w), fileIds := insertA s.fileIds f [] }
            f s1 h
          exact ⟨h2.1, h2.2⟩
  | error e =>
      intro s1 h
      have h1 := Option.some.inj h
      subst h1
      exact ⟨rfl, rfl⟩

theorem updateNotes_frame :
    ∀ (batch : List (FileId × NotesResult)) (s s1 : NotesState),
      updateNotes s batch = some s1 → s1.ready = s.ready ∧ s1.sent = s.sent := by
  intro batch
  induction batch with
  | nil =>
      intro s s1 h
      have h1 := Option.some.inj h
      subst h1
      exact ⟨rfl, rfl⟩
  | cons p rest ih =>
      obtain ⟨f, r⟩ := p
      intro s s1 h
      unfold updateNotes at h
      cases hs : updateNotesStep s f r with
      | none => rw [hs] at h; exact Option.noConfusion h
      | some s2 =>
          rw [hs] at h
          have h2 := ih s2 s1 h
          have h3 := updateNotesStep_frame s f r s2 hs
          exact ⟨h2.1.trans h3.1, h2.2.trans h3.2⟩

theorem removeNotes_ready_sent (s : NotesState) (f : FileId) :
    (removeNotes s f).ready = s.ready ∧ (removeNotes s f).sent = s.sent := by
  unfold removeNotes
  cases lookupA s.fileIds f with
  | none => exact ⟨rfl, rfl⟩
  | some is =>
      have h := foldl_removeNoteId_fields is
        { s with errors := eraseA s.errors f, fileIds := eraseA s.fileIds f }
      exact ⟨h.2.2.2.2.2.1, h.2.2.2.2.2.2⟩

theorem updatesOf_append_remove (l : List Broadcast) (ids : List Nat) :
    updatesOf (l ++ [Broadcast.removeMsg ids]) = updatesOf l := by
  simp [updatesOf, List.filter_append, Broadcast.isUpdate]

theorem removeNotesFull_sent_ready (s : NotesState) (f : FileId) :
    (removeNotesFull s f).sent
        = s.sent ++ [Broadcast.removeMsg ((lookupA s.fileIds f).getD [])]
    ∧ (removeNotesFull s f).ready = s.ready := by
  constructor
  · show (removeNotes s f).sent
        ++ [Broadcast.removeMsg ((lookupA s.fileIds f).getD [])]
      = s.sent ++ [Broadcast.removeMsg ((lookupA s.fileIds f).getD [])]
    rw [(removeNotes_ready_sent s f).2]
  · show (removeNotes s f).ready = s.ready
    exact (removeNotes_ready_sent s f).1

/-- Claim C5 (confirmed, spec-modelled broadcast): while the readiness
event has not fired, no operation adds an `Update` message to the broadcast
log (and none of them fires the event), and once it has fired a
`create_notes` that applies an `Ok` result with a non-empty batch
broadcasts exactly `Update(batch)`. -/
theorem C5_update_gating :
    (∀ s f r s1, createNotesFull s f r = some s1 → s.ready = false →
        updatesOf s1.sent = updatesOf s.sent)
    ∧ (∀ s batch s1, updateNotesFull s batch = some s1 → s.ready = false →
        updatesOf s1.sent = updatesOf s.sent)
    ∧ (∀ s f, updatesOf (removeNotesFull s f).sent = updatesOf s.sent
        ∧ (removeNotesFull s f).ready = s.ready)
    ∧ (∀ s : NotesState, (setBuildFinished s).sent = s.sent
        ∧ (setBuildFinished s).ready = true)
    ∧ (∀ s f w notes s1, s.ready = true → notes ≠ [] →
        createNotesFull s f (.ok (w, notes)) = some s1 →
        s1.sent = s.sent ++ [Broadcast.update notes]) := by
  refine ⟨?_, ?_, ?_, fun s => ⟨rfl, rfl⟩, ?_⟩
  · intro s f r s1 h hready
    cases r with
    | ok p =>
        obtain ⟨w, notes⟩ := p
        unfold createNotesFull at h
        rw [Option.map_eq_some'] at h
        obtain ⟨s2, hc, hfn⟩ := h
        rw [hready] at hfn
        simp at hfn
        subst hfn
        rw [(createNotes_frame s f (.ok (w, notes)) s2 hc).2]
    | error e =>
        unfold createNotesFull at h
        rw [(createNotes_frame s f (.error e) s1 h).2]
  · intro s batch s1 h hready
    unfold updateNotesFull at h
    rw [Option.map_eq_some'] at h
    obtain ⟨s2, hc, hfn⟩ := h
    rw [hready] at hfn
    simp at hfn
    subst hfn
    rw [(updateNotes_frame batch s s2 hc).2]
  · intro s f
    constructor
    · rw [(removeNotesFull_sent_ready s f).1, updatesOf_append_remove]
    · exact (removeNotesFull_sent_ready s f).2
  · intro s f w notes s1 hready hne h
    have hni : notes.isEmpty = false := by
      cases notes with
      | nil => exact absurd rfl hne
      | cons d ds => rfl
    unfold createNotesFull at h
    rw [Option.map_eq_some'] at h
    obtain ⟨s2, hc, hfn⟩ := h
    rw [hready, hni] at hfn
    simp at hfn
    subst hfn
    show s2.sent ++ [Broadcast.update notes] = s.sent ++ [Broadcast.update notes]
    rw [(createNotes_frame s f (.ok (w, notes)) s2 hc).2]

theorem C5_witness :
    updatesOf c5resBefore.sent = updatesOf exS0.sent
    ∧ c5resAfter.sent
        = (setBuildFinished exDang).sent ++ [Broadcast.update [noteB]] := by
  constructor
  · exact C5_update_gating.1 exS0 fidA (.ok (0, [exNote])) c5resBefore
      (by decide) rfl
  · exact C5_update_gating.2.2.2.2 (setBuildFinished exDang) fidB 0 [noteB]
      c5resAfter rfl (by decide) (by decide)

/-! ## Claim C8 (slot-cell cache) -/

/-- Claim C8 (confirmed): a second access within the same build (accessed
flag set and cached data present) returns the cached result without
re-loading or re-decoding and leaves the cell unchanged; `reset` clears only
the accessed flag; and after a reset, an access with a successful load
returns the cached value without decoding exactly when the newly computed
fingerprint equals the stored one and cached data exists — otherwise the
decoder runs. -/
theorem C8_slot_cache :
    (∀ (T : Type) (c : SlotCell T) (load : Except FileErr (List Nat))
        (hash : Except FileErr (List Nat) → Nat)
        (f : List Nat → Option T → Except FileErr T) (d : Except FileErr T),
        c.accessed = true → c.data = some d →
        c.getOrInit load hash f = ⟨d, c, false, false⟩)
    ∧ (∀ (T : Type) (c : SlotCell T),
        c.reset.data = c.data ∧ c.reset.fingerprint = c.fingerprint
          ∧ c.reset.accessed = false)
    ∧ (∀ (T : Type) (c : SlotCell T) (bytes : List Nat)
        (hash : Except FileErr (List Nat) → Nat)
        (f : List Nat → Option T → Except FileErr T),
        c.accessed = false →
        (((c.getOrInit (.ok bytes) hash f).didDecode = false
            ∧ ∃ d, c.data = some d ∧ (c.getOrInit (.ok bytes) hash f).value = d)
          ↔ (c.fingerprint = hash (.ok bytes) ∧ c.data.isSome = true))) := by
  refine ⟨?_, fun T c => ⟨rfl, rfl, rfl⟩, ?_⟩
  · intro T c load hash f d h1 h2
    obtain ⟨dta, fp, acc⟩ := c
    change acc = true at h1
    change dta = some d at h2
    subst h1
    subst h2
    rfl
  · intro T c bytes hash f h1
    obtain ⟨dta, fp, acc⟩ := c
    change acc = false at h1
    subst h1
    cases dta with
    | none => simp [SlotCell.getOrInit, SlotCell.loadAndDecode]
    | some d =>
        by_cases hfp : fp = hash (.ok bytes)
        · simp [SlotCell.getOrInit, SlotCell.loadAndDecode, hfp]
        · simp [SlotCell.getOrInit, SlotCell.loadAndDecode, hfp]

theorem C8_witness :
    c8cellA.getOrInit (.ok [1]) (fun _ => 5) (fun _ _ => .ok 0)
        = ⟨.ok 7, c8cellA, false, false⟩
    ∧ (c8cellB.reset.data = c8cellB.data
        ∧ c8cellB.reset.fingerprint = c8cellB.fingerprint
        ∧ c8cellB.reset.accessed = false)
    ∧ (((c8cellB.getOrInit (.ok [1]) (fun _ => 5) (fun _ _ => .ok 0)).didDecode = false
          ∧ ∃ d, c8cellB.data = some d
            ∧ (c8cellB.getOrInit (.ok [1]) (fun _ => 5) (fun _ _ => .ok 0)).value = d)
        ↔ (c8cellB.fingerprint
              = (fun _ : Except FileErr (List Nat) => 5) (Except.ok [1])
            ∧ c8cellB.data.isSome = true)) :=
  ⟨C8_slot_cache.1 Nat c8cellA (.ok [1]) (fun _ => 5) (fun _ _ => .ok 0) (.ok 7) rfl rfl,
   C8_slot_cache.2.1 Nat c8cellB,
   C8_slot_cache.2.2 Nat c8cellB [1] (fun _ => 5) (fun _ _ => .ok 0) rfl⟩
